import Mathlib

/-!
# `main.c`: dispatching one of three calling-convention probes

A shallow embedding of the single translation unit `src/main.c`.

* Every function named in the unit is a constructor of `Fn`; the attributes of
  its declaration are recorded in `decl`.
* A run produces a trace of events: `Event.enter f` when a function defined in
  the unit starts executing, `Event.ext f a b` when the external routine `f` is
  called with the two `int` arguments `a` and `b`.
* The two external routines have no body in the unit.  Whether a call to one of
  them returns, and where the linker places the functions, is given by an
  environment `Env`; nothing else about them is assumed.
* A computation is an `Exec α`: the events it produced and, when it returned,
  its value (`none`: control never came back).
-/

set_option linter.unusedVariables false

namespace StdcallDemo

/-! ## Declarations -/

/-- Functions named in `main.c`, in order of declaration. -/
inductive Fn
  | f_stdcall
  | f_cdecl
  | main_stdcall
  | main_cdecl
  | busyloop
  | main_stdcall_fun
  | main
  deriving DecidableEq

/-- Attributes written in `__attribute__((...))` lists of the unit. -/
inductive Attr
  | noinline
  | stdcall
  | cdecl
  deriving DecidableEq

/-- What a declaration of the unit says about a function. -/
structure Decl where
  /-- Declared with the storage class of an external routine: no body here. -/
  isExt : Bool
  /-- Declared `static`. -/
  isStatic : Bool
  /-- Attributes of the declaration, in source order. -/
  attrs : List Attr
  deriving DecidableEq

/-- Declarations of `main.c`, one per function. -/
def decl : Fn → Decl
  | .f_stdcall => ⟨true, false, [.stdcall]⟩
  | .f_cdecl => ⟨true, false, [.cdecl]⟩
  | .main_stdcall => ⟨false, true, [.noinline, .stdcall]⟩
  | .main_cdecl => ⟨false, true, [.noinline, .cdecl]⟩
  | .busyloop => ⟨false, true, []⟩
  | .main_stdcall_fun => ⟨false, true, [.noinline, .stdcall]⟩
  | .main => ⟨false, false, []⟩

/-! ## Traces and computations -/

/-- Observable steps of a run. -/
inductive Event
  /-- A function defined in the unit starts executing. -/
  | enter (f : Fn)
  /-- Call `f(a, b)` of an external routine. -/
  | ext (f : Fn) (a b : Int)
  deriving DecidableEq

/-- Computation with a trace: `result = none` when control does not come back. -/
structure Exec (α : Type) where
  trace : List Event
  result : Option α
  deriving DecidableEq

/-- Sequencing: the second part runs only when the first returned. -/
def Exec.bind {α β : Type} (x : Exec α) (f : α → Exec β) : Exec β :=
  match x.result with
  | none => ⟨x.trace, none⟩
  | some a => ⟨x.trace ++ (f a).trace, (f a).result⟩

instance : Monad Exec where
  pure a := ⟨[], some a⟩
  bind := Exec.bind

/-- Link-time and run-time surroundings of the unit. -/
structure Env where
  /-- Address the linker gave to each function. -/
  addr : Fn → Nat
  /-- Whether the external routine `f` returns from the call `f(a, b)`. -/
  returns : Fn → Int → Int → Bool

/-- Record that a function of the unit starts executing. -/
def enter (f : Fn) : Exec Unit :=
  ⟨[.enter f], some ()⟩

/-- Call of an external routine with two `int` arguments. -/
def callExt (env : Env) (f : Fn) (a b : Int) : Exec Unit :=
  ⟨[.ext f a b], if env.returns f a b then some () else none⟩

/-- External calls of a trace, in order. -/
def extCalls (t : List Event) : List Event :=
  t.filter fun e => match e with
    | .ext _ _ _ => true
    | .enter _ => false

/-- Functions of the unit entered in a trace, in order. -/
def entered (t : List Event) : List Fn :=
  t.filterMap fun e => match e with
    | .enter f => some f
    | .ext _ _ _ => none

/-- External routines called in a trace, in order. -/
def callees (t : List Event) : List Fn :=
  t.filterMap fun e => match e with
    | .ext f _ _ => some f
    | .enter _ => none

/-! ## Values -/

/-- Conversion `(int) p` of a code address: the low 32 bits, read as a signed `int`. -/
def ptrToInt (p : Nat) : Int :=
  if p % 2 ^ 32 < 2 ^ 31 then ((p % 2 ^ 32 : Nat) : Int) else ((p % 2 ^ 32 : Nat) : Int) - 2 ^ 32

/-- Value of a character constant such as `'c'`, of type `int`. -/
def chr (ch : Char) : Int :=
  (ch.toNat : Int)

/-- String in memory: the `char` values before the terminating NUL. -/
abbrev CString := List Int

/-- Value of `s[0]`: the first `char`, which is the terminating NUL for the empty string. -/
def CString.first : CString → Int
  | [] => 0
  | b :: _ => b

/-- Pointer array `v` as `main` reads it: `v i` is `v[i]`, `none` for a null pointer. -/
abbrev Argv := Nat → Option CString

/-- Pointer array of a command line: the arguments, then a null pointer. -/
def argvOf (args : List CString) : Argv :=
  fun i => args.get? i

/-- String of ASCII characters as a `CString`. -/
def cstr (s : List Char) : CString :=
  s.map chr

/-! ## The functions of `main.c` -/

/-- Probe `main_stdcall`: `f_stdcall(123, 456);`. -/
def main_stdcall (env : Env) : Exec Unit := do
  enter .main_stdcall
  callExt env .f_stdcall 123 456

/-- Probe `main_cdecl`: `f_cdecl(123, 456);`. -/
def main_cdecl (env : Env) : Exec Unit := do
  enter .main_cdecl
  callExt env .f_cdecl 123 456

/-- Loop `for (;;);` with an empty body: one unit of fuel per iteration. -/
def forever : Nat → Exec Unit
  | 0 => ⟨[], none⟩
  | fuel + 1 => forever fuel

/-- Function `busyloop`: `for (;;);`. -/
def busyloop (fuel : Nat) : Exec Unit := do
  enter .busyloop
  forever fuel

/-- Probe `main_stdcall_fun`: `f_stdcall(123, (int) busyloop);`. -/
def main_stdcall_fun (env : Env) : Exec Unit := do
  enter .main_stdcall_fun
  callExt env .f_stdcall 123 (ptrToInt (env.addr .busyloop))

/-- One `case label: body` of a `switch`; `brk` tells whether the body ends in `break`. -/
structure Case where
  label : Int
  body : Exec Unit
  brk : Bool

/-- Run the bodies of consecutive cases until one ends in `break`. -/
def runCases : List Case → Exec Unit
  | [] => pure ()
  | k :: rest => do
    k.body
    if k.brk then pure () else runCases rest

/-- Statement `switch (sel)` without a `default` label: jump to the first case
labelled `sel` and run from there; do nothing when no label matches. -/
def switch (sel : Int) (cases : List Case) : Exec Unit :=
  runCases (cases.dropWhile fun k => decide (k.label ≠ sel))

/-- Cases of the `switch` in `main`, in source order; each body ends in `break`. -/
def mainCases (env : Env) : List Case :=
  [⟨chr 'c', main_cdecl env, true⟩,
   ⟨chr 's', main_stdcall env, true⟩,
   ⟨chr 'f', main_stdcall_fun env, true⟩]

/-- Entry point `main(c, v)`: `if (!v[1]) return 1;`, then `switch (v[1][0])`.
Reaching the closing brace of `main` returns 0. -/
def main (env : Env) (c : Int) (v : Argv) : Exec Int :=
  match v 1 with
  | none => pure 1
  | some arg => do
    switch arg.first (mainCases env)
    pure 0

/-- Environment used in examples: `busyloop` at `0x401136`, every call returns. -/
def env0 : Env where
  addr := fun f => match f with
    | .f_stdcall => 0x401200
    | .f_cdecl => 0x401210
    | .main_stdcall => 0x401106
    | .main_cdecl => 0x40111e
    | .busyloop => 0x401136
    | .main_stdcall_fun => 0x401138
    | .main => 0x401150
  returns := fun _ _ _ => true

/-- Environment in which no external call returns. -/
def envStuck : Env where
  addr := env0.addr
  returns := fun _ _ _ => false

theorem pure_eq {α : Type} (a : α) : (pure a : Exec α) = ⟨[], some a⟩ := rfl

theorem bind_eq {α β : Type} (x : Exec α) (f : α → Exec β) : x >>= f = Exec.bind x f := rfl

theorem chr_c : chr 'c' = 99 := by decide

theorem chr_s : chr 's' = 115 := by decide

theorem chr_f : chr 'f' = 102 := by decide

theorem main_stdcall_eq (env : Env) :
    main_stdcall env = ⟨[.enter .main_stdcall, .ext .f_stdcall 123 456],
      if env.returns .f_stdcall 123 456 then some () else none⟩ := by
  simp [main_stdcall, enter, callExt, bind_eq, Exec.bind]

theorem main_cdecl_eq (env : Env) :
    main_cdecl env = ⟨[.enter .main_cdecl, .ext .f_cdecl 123 456],
      if env.returns .f_cdecl 123 456 then some () else none⟩ := by
  simp [main_cdecl, enter, callExt, bind_eq, Exec.bind]

theorem main_stdcall_fun_eq (env : Env) :
    main_stdcall_fun env
      = ⟨[.enter .main_stdcall_fun, .ext .f_stdcall 123 (ptrToInt (env.addr .busyloop))],
        if env.returns .f_stdcall 123 (ptrToInt (env.addr .busyloop)) then some () else none⟩ := by
  simp [main_stdcall_fun, enter, callExt, bind_eq, Exec.bind]

theorem main_absent (env : Env) (c : Int) (v : Argv) (h : v 1 = none) :
    main env c v = ⟨[], some 1⟩ := by
  simp [main, h, pure_eq]

theorem main_on_c (env : Env) (c : Int) (v : Argv) (arg : CString) (h : v 1 = some arg)
    (hc : arg.first = chr 'c') :
    main env c v = ⟨[.enter .main_cdecl, .ext .f_cdecl 123 456],
      if env.returns .f_cdecl 123 456 then some 0 else none⟩ := by
  simp only [main, mainCases, h, hc, switch, List.dropWhile, runCases, main_cdecl_eq, bind_eq,
    Exec.bind, pure_eq]
  by_cases hr : env.returns .f_cdecl 123 456 <;> simp [hr]

theorem main_on_s (env : Env) (c : Int) (v : Argv) (arg : CString) (h : v 1 = some arg)
    (hs : arg.first = chr 's') :
    main env c v = ⟨[.enter .main_stdcall, .ext .f_stdcall 123 456],
      if env.returns .f_stdcall 123 456 then some 0 else none⟩ := by
  simp only [main, mainCases, h, hs, switch, List.dropWhile, runCases, main_stdcall_eq, bind_eq,
    Exec.bind, pure_eq, chr_c, chr_s]
  by_cases hr : env.returns .f_stdcall 123 456 <;> simp [hr]

theorem main_on_f (env : Env) (c : Int) (v : Argv) (arg : CString) (h : v 1 = some arg)
    (hf : arg.first = chr 'f') :
    main env c v
      = ⟨[.enter .main_stdcall_fun, .ext .f_stdcall 123 (ptrToInt (env.addr .busyloop))],
        if env.returns .f_stdcall 123 (ptrToInt (env.addr .busyloop)) then some 0 else none⟩ := by
  simp only [main, mainCases, h, hf, switch, List.dropWhile, runCases, main_stdcall_fun_eq,
    bind_eq, Exec.bind, pure_eq, chr_c, chr_s, chr_f]
  by_cases hr : env.returns .f_stdcall 123 (ptrToInt (env.addr .busyloop)) <;> simp [hr]

theorem main_on_other (env : Env) (c : Int) (v : Argv) (arg : CString) (h : v 1 = some arg)
    (hc : arg.first ≠ chr 'c') (hs : arg.first ≠ chr 's') (hf : arg.first ≠ chr 'f') :
    main env c v = ⟨[], some 0⟩ := by
  simp [main, mainCases, h, switch, List.dropWhile, runCases, bind_eq, Exec.bind, pure_eq,
    Ne.symm hc, Ne.symm hs, Ne.symm hf]

theorem bind_unit_pure (x : Exec Unit) : Exec.bind x (fun _ => (pure () : Exec Unit)) = x := by
  obtain ⟨t, r⟩ := x
  cases r <;> simp [Exec.bind, pure_eq]

/-- With `break` at the end of every case, `switch` runs the body of the first
case labelled `sel` and nothing else. -/
theorem switch_all_break (sel : Int) (cases : List Case) (hb : ∀ k ∈ cases, k.brk = true) :
    switch sel cases
      = match cases.find? (fun k => decide (k.label = sel)) with
        | some k => k.body
        | none => pure () := by
  induction cases with
  | nil => rfl
  | cons k rest ih =>
    have hk : k.brk = true := hb k (List.mem_cons_self _ _)
    have hrest : ∀ j ∈ rest, j.brk = true := fun j hj => hb j (List.mem_cons_of_mem _ hj)
    by_cases hl : k.label = sel
    · simp [switch, List.dropWhile, List.find?, hl, runCases, hk, bind_eq, bind_unit_pure]
    · have := ih hrest
      simp only [switch, decide_not] at this
      simp [switch, List.dropWhile, List.find?, hl, this]

theorem ptrToInt_inj (p q : Nat) : ptrToInt p = ptrToInt q ↔ p % 2 ^ 32 = q % 2 ^ 32 := by
  unfold ptrToInt
  norm_num
  split_ifs <;> omega

theorem ptrToInt_eq_456 (p : Nat) : ptrToInt p = 456 ↔ p % 2 ^ 32 = 456 := by
  unfold ptrToInt
  norm_num
  split_ifs <;> omega

theorem forever_result (fuel : Nat) : forever fuel = ⟨[], none⟩ := by
  induction fuel with
  | zero => rfl
  | succ n ih => simpa [forever] using ih

theorem busyloop_eq (fuel : Nat) : busyloop fuel = ⟨[.enter .busyloop], none⟩ := by
  simp [busyloop, enter, forever_result, bind_eq, Exec.bind]

/-! ## Dispatch on the selector -/

/-- C1: when no first argument is supplied (`v[1]` is null), `main` returns exit
status 1 and the trace of the run is empty: neither `f_cdecl` nor `f_stdcall` is
invoked and no probe is entered. -/
theorem main_missing_argument (env : Env) (c : Int) (v : Argv) (h : v 1 = none) :
    (main env c v).result = some 1
      ∧ (main env c v).trace = []
      ∧ extCalls (main env c v).trace = [] := by
  rw [main_absent env c v h]
  exact ⟨rfl, rfl, rfl⟩

theorem main_missing_argument_witness :
    argvOf [cstr ['.', '/', 'a']] 1 = none
      ∧ (main envStuck 1 (argvOf [cstr ['.', '/', 'a']])).result = some 1
      ∧ (main envStuck 1 (argvOf [cstr ['.', '/', 'a']])).trace = []
      ∧ extCalls (main envStuck 1 (argvOf [cstr ['.', '/', 'a']])).trace = [] :=
  ⟨rfl, main_missing_argument envStuck 1 (argvOf [cstr ['.', '/', 'a']]) rfl⟩

/-- C2: when the first argument begins with `'c'`, whatever follows it, the
external calls of `main` are exactly one call `f_cdecl(123, 456)`, made from the
probe `main_cdecl`, and `f_stdcall` is not called. This holds whether or not
`f_cdecl` returns. -/
theorem main_selector_c (env : Env) (c : Int) (v : Argv) (arg : CString)
    (h : v 1 = some arg) (hc : arg.first = chr 'c') :
    extCalls (main env c v).trace = [.ext .f_cdecl 123 456]
      ∧ Fn.f_stdcall ∉ callees (main env c v).trace
      ∧ (main env c v).trace = [.enter .main_cdecl, .ext .f_cdecl 123 456] := by
  rw [main_on_c env c v arg h hc]
  exact ⟨rfl, by simp [callees], rfl⟩

theorem main_selector_c_witness :
    argvOf [cstr ['a'], cstr ['c', 'd', 'e', 'c', 'l'], cstr ['s']] 1
        = some (cstr ['c', 'd', 'e', 'c', 'l'])
      ∧ (cstr ['c', 'd', 'e', 'c', 'l']).first = chr 'c'
      ∧ extCalls (main env0 3 (argvOf [cstr ['a'], cstr ['c', 'd', 'e', 'c', 'l'],
          cstr ['s']])).trace = [.ext .f_cdecl 123 456] :=
  ⟨rfl, rfl,
    (main_selector_c env0 3 (argvOf [cstr ['a'], cstr ['c', 'd', 'e', 'c', 'l'], cstr ['s']])
      (cstr ['c', 'd', 'e', 'c', 'l']) rfl rfl).1⟩

/-- C3: when the first argument begins with `'s'`, whatever follows it, the
external calls of `main` are exactly one call `f_stdcall(123, 456)`, made from
the probe `main_stdcall`, and `f_cdecl` is not called. This holds whether or not
`f_stdcall` returns. -/
theorem main_selector_s (env : Env) (c : Int) (v : Argv) (arg : CString)
    (h : v 1 = some arg) (hs : arg.first = chr 's') :
    extCalls (main env c v).trace = [.ext .f_stdcall 123 456]
      ∧ Fn.f_cdecl ∉ callees (main env c v).trace
      ∧ (main env c v).trace = [.enter .main_stdcall, .ext .f_stdcall 123 456] := by
  rw [main_on_s env c v arg h hs]
  exact ⟨rfl, by simp [callees], rfl⟩

theorem main_selector_s_witness :
    argvOf [cstr ['a'], cstr ['s', 't', 'd']] 1 = some (cstr ['s', 't', 'd'])
      ∧ (cstr ['s', 't', 'd']).first = chr 's'
      ∧ extCalls (main envStuck 2 (argvOf [cstr ['a'], cstr ['s', 't', 'd']])).trace
        = [.ext .f_stdcall 123 456] :=
  ⟨rfl, rfl,
    (main_selector_s envStuck 2 (argvOf [cstr ['a'], cstr ['s', 't', 'd']])
      (cstr ['s', 't', 'd']) rfl rfl).1⟩

/-- C4: when the first argument begins with `'f'`, the external calls of `main`
are exactly one call of `f_stdcall`, made from the probe `main_stdcall_fun`, with
first argument 123 and second argument `(int) busyloop`, the address of
`busyloop` converted to `int`; `f_cdecl` is not called. The second argument is
the address of `busyloop` and of no other routine: where the low 32 bits of the
other functions' addresses differ from those of `busyloop`, the call is not
`f_stdcall(123, (int) g)` for any other function `g`, and where `busyloop` does
not lie at an address whose low 32 bits are 456, the call is not
`f_stdcall(123, 456)`. -/
theorem main_selector_f (env : Env) (c : Int) (v : Argv) (arg : CString)
    (h : v 1 = some arg) (hf : arg.first = chr 'f') :
    extCalls (main env c v).trace
        = [.ext .f_stdcall 123 (ptrToInt (env.addr .busyloop))]
      ∧ Fn.f_cdecl ∉ callees (main env c v).trace
      ∧ (main env c v).trace
        = [.enter .main_stdcall_fun, .ext .f_stdcall 123 (ptrToInt (env.addr .busyloop))]
      ∧ ((∀ g, g ≠ Fn.busyloop → env.addr g % 2 ^ 32 ≠ env.addr .busyloop % 2 ^ 32) →
          ∀ g, g ≠ Fn.busyloop →
            extCalls (main env c v).trace ≠ [.ext .f_stdcall 123 (ptrToInt (env.addr g))])
      ∧ (env.addr .busyloop % 2 ^ 32 ≠ 456 →
          extCalls (main env c v).trace ≠ [.ext .f_stdcall 123 456]) := by
  rw [main_on_f env c v arg h hf]
  refine ⟨rfl, ?_, rfl, ?_, ?_⟩
  · simp [callees]
  · intro hdist g hg heq
    have h2 : ptrToInt (env.addr .busyloop) = ptrToInt (env.addr g) := by
      simpa [extCalls] using heq
    exact hdist g hg ((ptrToInt_inj _ _).1 h2).symm
  · intro h456 heq
    have h2 : ptrToInt (env.addr .busyloop) = 456 := by
      simpa [extCalls] using heq
    exact h456 ((ptrToInt_eq_456 _).1 h2)

theorem main_selector_f_witness :
    argvOf [cstr ['a'], cstr ['f', 'u', 'n']] 1 = some (cstr ['f', 'u', 'n'])
      ∧ (cstr ['f', 'u', 'n']).first = chr 'f'
      ∧ extCalls (main env0 2 (argvOf [cstr ['a'], cstr ['f', 'u', 'n']])).trace
        = [.ext .f_stdcall 123 0x401136]
      ∧ extCalls (main env0 2 (argvOf [cstr ['a'], cstr ['f', 'u', 'n']])).trace
        ≠ [.ext .f_stdcall 123 (ptrToInt (env0.addr .main_stdcall_fun))]
      ∧ extCalls (main env0 2 (argvOf [cstr ['a'], cstr ['f', 'u', 'n']])).trace
        ≠ [.ext .f_stdcall 123 456] :=
  have w := main_selector_f env0 2 (argvOf [cstr ['a'], cstr ['f', 'u', 'n']])
    (cstr ['f', 'u', 'n']) rfl rfl
  ⟨rfl, rfl, w.1,
    w.2.2.2.1 (fun g hg => by cases g <;> first | exact absurd rfl hg | decide)
      .main_stdcall_fun (by decide),
    w.2.2.2.2 (by decide)⟩

/-- C5: when a first argument is present and its first character is none of
`'c'`, `'s'`, `'f'` (for the empty string that character is the terminating
NUL), `main` invokes no external routine, enters no probe, and returns by
reaching its closing brace: exit status 0, not 1. -/
theorem main_selector_other (env : Env) (c : Int) (v : Argv) (arg : CString)
    (h : v 1 = some arg) (hc : arg.first ≠ chr 'c') (hs : arg.first ≠ chr 's')
    (hf : arg.first ≠ chr 'f') :
    (main env c v).trace = []
      ∧ extCalls (main env c v).trace = []
      ∧ (main env c v).result = some 0
      ∧ (main env c v).result ≠ some 1 := by
  rw [main_on_other env c v arg h hc hs hf]
  exact ⟨rfl, rfl, rfl, by decide⟩

theorem main_selector_other_witness :
    ((main envStuck 2 (argvOf [cstr ['a'], cstr ['z']])).trace = []
        ∧ (main envStuck 2 (argvOf [cstr ['a'], cstr ['z']])).result = some 0)
      ∧ ((main envStuck 2 (argvOf [cstr ['a'], cstr ['C']])).trace = []
        ∧ (main envStuck 2 (argvOf [cstr ['a'], cstr ['C']])).result = some 0)
      ∧ ((main envStuck 2 (argvOf [cstr ['a'], cstr []])).trace = []
        ∧ (main envStuck 2 (argvOf [cstr ['a'], cstr []])).result = some 0) :=
  have wz := main_selector_other envStuck 2 (argvOf [cstr ['a'], cstr ['z']]) (cstr ['z']) rfl
    (by decide) (by decide) (by decide)
  have wC := main_selector_other envStuck 2 (argvOf [cstr ['a'], cstr ['C']]) (cstr ['C']) rfl
    (by decide) (by decide) (by decide)
  have we := main_selector_other envStuck 2 (argvOf [cstr ['a'], cstr []]) (cstr []) rfl
    (by decide) (by decide) (by decide)
  ⟨⟨wz.1, wz.2.2.1⟩, ⟨wC.1, wC.2.2.1⟩, ⟨we.1, we.2.2.1⟩⟩

/-! ## Properties of whole runs -/

/-- Outcome of `main` when the first argument is present, by selector. -/
theorem main_present (env : Env) (c : Int) (v : Argv) (arg : CString) (h : v 1 = some arg) :
    main env c v
      = if arg.first = chr 'c' then
          ⟨[.enter .main_cdecl, .ext .f_cdecl 123 456],
            if env.returns .f_cdecl 123 456 then some 0 else none⟩
        else if arg.first = chr 's' then
          ⟨[.enter .main_stdcall, .ext .f_stdcall 123 456],
            if env.returns .f_stdcall 123 456 then some 0 else none⟩
        else if arg.first = chr 'f' then
          ⟨[.enter .main_stdcall_fun, .ext .f_stdcall 123 (ptrToInt (env.addr .busyloop))],
            if env.returns .f_stdcall 123 (ptrToInt (env.addr .busyloop)) then some 0 else none⟩
        else ⟨[], some 0⟩ := by
  by_cases hc : arg.first = chr 'c'
  · rw [if_pos hc]
    exact main_on_c env c v arg h hc
  by_cases hs : arg.first = chr 's'
  · rw [if_neg hc, if_pos hs]
    exact main_on_s env c v arg h hs
  by_cases hf : arg.first = chr 'f'
  · rw [if_neg hc, if_neg hs, if_pos hf]
    exact main_on_f env c v arg h hf
  · rw [if_neg hc, if_neg hs, if_neg hf]
    exact main_on_other env c v arg h hc hs hf

/-- C7: assuming the external routines return, the exit status of `main` is 1
exactly when no first argument is supplied, and whenever a first argument is
supplied (selector `c`, `s`, `f` or any other) `main` reaches its closing brace
and the status is 0. -/
theorem main_status (env : Env) (c : Int) (v : Argv)
    (hret : ∀ f a b, (decl f).isExt = true → env.returns f a b = true) :
    ((main env c v).result = some 1 ↔ v 1 = none)
      ∧ (v 1 ≠ none → (main env c v).result = some 0) := by
  have hs : ∀ b, env.returns .f_stdcall 123 b = true := fun b => hret _ _ _ rfl
  have hc : env.returns .f_cdecl 123 456 = true := hret _ _ _ rfl
  cases h : v 1 with
  | none => simp [main_absent env c v h]
  | some arg =>
    rw [main_present env c v arg h]
    simp only [hs, hc, if_true]
    split_ifs <;> simp

theorem main_status_witness :
    ((main env0 1 (argvOf [cstr ['a']])).result = some 1 ↔ argvOf [cstr ['a']] 1 = none)
      ∧ (main env0 2 (argvOf [cstr ['a'], cstr ['f']])).result = some 0 :=
  ⟨(main_status env0 1 (argvOf [cstr ['a']]) (fun _ _ _ _ => rfl)).1,
    (main_status env0 2 (argvOf [cstr ['a'], cstr ['f']]) (fun _ _ _ _ => rfl)).2 (by decide)⟩

/-- C8: each probe is declared `noinline` with the calling convention of the
external routine it calls: `main_stdcall` and `main_stdcall_fun` carry exactly
the attributes `noinline` and `stdcall` and call only `f_stdcall`, which is an
external routine declared `stdcall`; `main_cdecl` carries exactly `noinline` and
`cdecl` and calls only `f_cdecl`, an external routine declared `cdecl`. -/
theorem probes_match_convention (env : Env) :
    ((decl .main_stdcall).attrs = [.noinline, .stdcall]
        ∧ callees (main_stdcall env).trace = [.f_stdcall])
      ∧ ((decl .main_stdcall_fun).attrs = [.noinline, .stdcall]
        ∧ callees (main_stdcall_fun env).trace = [.f_stdcall])
      ∧ ((decl .main_cdecl).attrs = [.noinline, .cdecl]
        ∧ callees (main_cdecl env).trace = [.f_cdecl])
      ∧ ((decl .f_stdcall).isExt = true ∧ (decl .f_stdcall).attrs = [.stdcall])
      ∧ ((decl .f_cdecl).isExt = true ∧ (decl .f_cdecl).attrs = [.cdecl]) := by
  rw [main_stdcall_eq, main_stdcall_fun_eq, main_cdecl_eq]
  exact ⟨⟨rfl, rfl⟩, ⟨rfl, rfl⟩, ⟨rfl, rfl⟩, ⟨rfl, rfl⟩, ⟨rfl, rfl⟩⟩

/-- C9: every run of `main` enters at most one function of the unit, which is
one of the three probes, and makes at most one external call. The `switch` is
decided by the selector `v[1][0]` alone: every case ends in `break`, so the trace
of the run is the trace of the body of the first case labelled with the selector
(empty when there is none), with no fall-through into a later case. -/
theorem main_at_most_one_probe (env : Env) (c : Int) (v : Argv) :
    (entered (main env c v).trace).length ≤ 1
      ∧ (∀ f ∈ entered (main env c v).trace,
          f = .main_cdecl ∨ f = .main_stdcall ∨ f = .main_stdcall_fun)
      ∧ (extCalls (main env c v).trace).length ≤ 1
      ∧ (∀ k ∈ mainCases env, k.brk = true)
      ∧ (∀ arg, v 1 = some arg →
          (main env c v).trace
            = match (mainCases env).find? (fun k => decide (k.label = arg.first)) with
              | some k => k.body.trace
              | none => []) := by
  refine ⟨?_, ?_, ?_, ?_, ?_⟩
  · cases h : v 1 with
    | none => simp [main_absent env c v h, entered]
    | some arg =>
      rw [main_present env c v arg h]
      split_ifs <;> simp [entered]
  · cases h : v 1 with
    | none => simp [main_absent env c v h, entered]
    | some arg =>
      rw [main_present env c v arg h]
      split_ifs <;> simp [entered]
  · cases h : v 1 with
    | none => simp [main_absent env c v h, extCalls]
    | some arg =>
      rw [main_present env c v arg h]
      split_ifs <;> simp [extCalls]
  · intro k hk
    simp only [mainCases, List.mem_cons, List.mem_singleton, List.not_mem_nil, or_false] at hk
    rcases hk with rfl | rfl | rfl <;> rfl
  · intro arg h
    by_cases hc : arg.first = chr 'c'
    · rw [main_on_c env c v arg h hc]
      simp [mainCases, List.find?, hc, main_cdecl_eq]
    by_cases hs : arg.first = chr 's'
    · rw [main_on_s env c v arg h hs]
      simp [mainCases, List.find?, hs, chr_c, chr_s, main_stdcall_eq]
    by_cases hf : arg.first = chr 'f'
    · rw [main_on_f env c v arg h hf]
      simp [mainCases, List.find?, hf, chr_c, chr_s, chr_f, main_stdcall_fun_eq]
    · rw [main_on_other env c v arg h hc hs hf]
      simp [mainCases, List.find?, Ne.symm hc, Ne.symm hs, Ne.symm hf]

theorem main_at_most_one_probe_witness :
    (entered (main env0 2 (argvOf [cstr ['a'], cstr ['c', 's', 'f']])).trace).length ≤ 1
      ∧ (extCalls (main env0 2 (argvOf [cstr ['a'], cstr ['c', 's', 'f']])).trace).length ≤ 1
      ∧ (main env0 2 (argvOf [cstr ['a'], cstr ['c', 's', 'f']])).trace
        = match (mainCases env0).find?
            (fun k => decide (k.label = (cstr ['c', 's', 'f']).first)) with
          | some k => k.body.trace
          | none => [] :=
  have w := main_at_most_one_probe env0 2 (argvOf [cstr ['a'], cstr ['c', 's', 'f']])
  ⟨w.1, w.2.2.1, w.2.2.2.2 (cstr ['c', 's', 'f']) rfl⟩

/-- C10: `busyloop` is never called: it is entered in no run of `main` and in no
probe, its only use being the address passed by `main_stdcall_fun`. So, assuming
the external routines return, `main` returns an exit status on every input,
although `busyloop` itself never returns, whatever the number of loop iterations
allowed. -/
theorem busyloop_never_called (env : Env) (c : Int) (v : Argv) :
    Fn.busyloop ∉ entered (main env c v).trace
      ∧ Fn.busyloop ∉ entered (main_cdecl env).trace
      ∧ Fn.busyloop ∉ entered (main_stdcall env).trace
      ∧ Fn.busyloop ∉ entered (main_stdcall_fun env).trace
      ∧ ((∀ f a b, (decl f).isExt = true → env.returns f a b = true) →
          ∃ status, (main env c v).result = some status)
      ∧ (∀ fuel, (busyloop fuel).result = none
          ∧ Fn.busyloop ∈ entered (busyloop fuel).trace) := by
  refine ⟨?_, ?_, ?_, ?_, ?_, ?_⟩
  · cases h : v 1 with
    | none => simp [main_absent env c v h, entered]
    | some arg =>
      rw [main_present env c v arg h]
      split_ifs <;> simp [entered]
  · simp [main_cdecl_eq, entered]
  · simp [main_stdcall_eq, entered]
  · simp [main_stdcall_fun_eq, entered]
  · intro hret
    have hs : ∀ b, env.returns .f_stdcall 123 b = true := fun b => hret _ _ _ rfl
    have hc : env.returns .f_cdecl 123 456 = true := hret _ _ _ rfl
    cases h : v 1 with
    | none => exact ⟨1, by rw [main_absent env c v h]⟩
    | some arg =>
      refine ⟨0, ?_⟩
      rw [main_present env c v arg h]
      simp only [hs, hc, if_true]
      split_ifs <;> rfl
  · intro fuel
    simp [busyloop_eq, entered]

theorem busyloop_never_called_witness :
    Fn.busyloop ∉ entered (main env0 2 (argvOf [cstr ['a'], cstr ['f']])).trace
      ∧ (∃ status, (main env0 2 (argvOf [cstr ['a'], cstr ['f']])).result = some status)
      ∧ (busyloop 1000).result = none :=
  have w := busyloop_never_called env0 2 (argvOf [cstr ['a'], cstr ['f']])
  ⟨w.1, w.2.2.2.2.1 (fun _ _ _ _ => rfl), (w.2.2.2.2.2 1000).1⟩

end StdcallDemo
